import Mathlib

/-!
Verification of the Socket-Aces blackjack client/server.

Shallow embedding of the protocol codec (`BlackjackServerProtocol.py`,
`BlackjackClientProtocol.py`), the deck/scoring engine
(`shared/blackjack_game.py`), the server round state machine
(`Server/server.py`, `play_round`) and the client card handler
(`Client/client.py`, `receive_and_print_card`).

Byte strings are modelled as `List Nat` with each entry a byte value;
Python `struct` packing/unpacking of big-endian fields is modelled by
explicit base-256 arithmetic.  Python `bytes.decode('utf-8')` on the
fields compared against ASCII literals is modelled as the identity on
byte lists (the literals involved are pure ASCII).
-/

/-- Protocol constant `MAGIC_COOKIE = 0xabcddcba` (protocol_constants.py). -/
def MAGIC_COOKIE : Nat := 0xabcddcba

/-- Message type tag `MSG_OFFER = 0x2`. -/
def MSG_OFFER : Nat := 0x2

/-- Message type tag `MSG_REQUEST = 0x3`. -/
def MSG_REQUEST : Nat := 0x3

/-- Message type tag `MSG_PAYLOAD = 0x4`. -/
def MSG_PAYLOAD : Nat := 0x4

/-- Result code `RESULT_CONTINUE = 0x0` (round in progress, card attached). -/
def RESULT_CONTINUE : Nat := 0x0

/-- Result code `RESULT_TIE = 0x1`. -/
def RESULT_TIE : Nat := 0x1

/-- Result code `RESULT_LOSS = 0x2`. -/
def RESULT_LOSS : Nat := 0x2

/-- Result code `RESULT_WIN = 0x3`. -/
def RESULT_WIN : Nat := 0x3

/-- Big-endian bytes of a 32-bit unsigned value (Python `struct` format `!I`). -/
def u32be (n : Nat) : List Nat :=
  [n / 16777216 % 256, n / 65536 % 256, n / 256 % 256, n % 256]

/-- Big-endian bytes of a 16-bit unsigned value (Python `struct` format `!H`). -/
def u16be (n : Nat) : List Nat :=
  [n / 256 % 256, n % 256]

/-- Big-endian interpretation of a byte list (how `struct.unpack` reads
multi-byte fields). -/
def bytesToNatBE (l : List Nat) : Nat :=
  l.foldl (fun a b => a * 256 + b) 0

/-- Python `str.strip(chr 0)`: remove leading and trailing NUL bytes. -/
def stripNulls (l : List Nat) : List Nat :=
  ((l.dropWhile (fun b => b = 0)).reverse.dropWhile (fun b => b = 0)).reverse

/-- ASCII bytes of the wire literal `"Hittt"`. -/
def hitttBytes : List Nat := [72, 105, 116, 116, 116]

/-- ASCII bytes of the wire literal `"Stand"`. -/
def standBytes : List Nat := [83, 116, 97, 110, 100]

/-- The decode-failure taxonomy of the spec (the Python code raises
`ValueError` with a distinguishing message for each of these). -/
inductive DecodeError where
  | MalformedMessage
  | BadMagic
  | UnexpectedType
  | InvalidDecision
deriving DecidableEq

/-- The two logical player decisions. -/
inductive Decision where
  | Hit
  | Stand
deriving DecidableEq

/-- `BlackjackServerProtocol.unpack_request` (BlackjackServerProtocol.py,
lines 28-42): length check, then `struct.unpack` of magic, type tag,
rounds byte and 32-byte NUL-padded team name, validated in that order. -/
def unpack_request (data : List Nat) : Except DecodeError (Nat × List Nat) :=
  if data.length < 38 then .error .MalformedMessage
  else
    let cookie := bytesToNatBE (data.take 4)
    let msgType := data.getD 4 0
    let rounds := data.getD 5 0
    let nameBytes := (data.drop 6).take 32
    if cookie ≠ MAGIC_COOKIE then .error .BadMagic
    else if msgType ≠ MSG_REQUEST then .error .UnexpectedType
    else .ok (rounds, stripNulls nameBytes)

/-- `BlackjackServerProtocol.unpack_player_decision`
(BlackjackServerProtocol.py, lines 57-77): length, magic and type checks,
then the 5-byte decision field is NUL-stripped and compared exactly
against `"Hittt"` and `"Stand"`. -/
def unpack_player_decision (data : List Nat) : Except DecodeError Decision :=
  if data.length < 10 then .error .MalformedMessage
  else
    let cookie := bytesToNatBE (data.take 4)
    let msgType := data.getD 4 0
    let decisionBytes := (data.drop 5).take 5
    if cookie ≠ MAGIC_COOKIE then .error .BadMagic
    else if msgType ≠ MSG_PAYLOAD then .error .UnexpectedType
    else
      let raw := stripNulls decisionBytes
      if raw = hitttBytes then .ok .Hit
      else if raw = standBytes then .ok .Stand
      else .error .InvalidDecision

/-- `BlackjackServerProtocol.pack_payload_server` (BlackjackServerProtocol.py,
lines 47-55): `struct.pack('!I B B H B', MAGIC, MSG_PAYLOAD, result, rank,
suit)`.  `struct.pack` raises when a field is out of range for its format
code, modelled by the `Option` guard. -/
def pack_payload_server (result_code card_rank card_suit : Nat) : Option (List Nat) :=
  if result_code < 256 ∧ card_rank < 65536 ∧ card_suit < 256 then
    some (u32be MAGIC_COOKIE ++ [MSG_PAYLOAD, result_code] ++ u16be card_rank ++ [card_suit])
  else none

/-- `BlackjackClientProtocol.unpack_payload_server`
(BlackjackClientProtocol.py, lines 49-62): length, magic and type checks,
then result byte, big-endian 16-bit rank and suit byte. -/
def unpack_payload_server (data : List Nat) : Except DecodeError (Nat × Nat × Nat) :=
  if data.length < 9 then .error .MalformedMessage
  else
    let cookie := bytesToNatBE (data.take 4)
    let msgType := data.getD 4 0
    let result := data.getD 5 0
    let rank := bytesToNatBE ((data.drop 6).take 2)
    let suit := data.getD 8 0
    if cookie ≠ MAGIC_COOKIE then .error .BadMagic
    else if msgType ≠ MSG_PAYLOAD then .error .UnexpectedType
    else .ok (result, rank, suit)

/-- `BlackjackClientProtocol.pack_player_decision`
(BlackjackClientProtocol.py, lines 67-82) restricted to the two logical
decisions: the `decision_map` sends `"Hit"` to the wire literal `"Hittt"`
and `"Stand"` to `"Stand"`, then packs `struct.pack('!I B 5s', ...)`. -/
def pack_player_decision (d : Decision) : List Nat :=
  let protocol_string := match d with
    | .Hit => hitttBytes
    | .Stand => standBytes
  u32be MAGIC_COOKIE ++ [MSG_PAYLOAD] ++ protocol_string

deriving instance DecidableEq for Except

/-- A card is a `(rank, suit)` pair, rank 1..13, suit 0..3. -/
abbrev Card := Nat × Nat

/-- The per-card value used by both score functions: Ace (rank 1) counts
11, face cards (rank ≥ 10) count 10, others their rank. -/
def rankValue (rank : Nat) : Nat :=
  if rank = 1 then 11 else if rank ≥ 10 then 10 else rank

/-- The summation loop shared by `Server.calculate_score` (server.py,
lines 258-268) and the first loop of `BlackjackGame.calculate_score`
(blackjack_game.py, lines 80-96): sum of `rankValue` over the hand. -/
def handSum (cards : List Card) : Nat :=
  cards.foldl (fun score c => score + rankValue c.1) 0

/-- `Server.calculate_score` (server.py, lines 258-268): the server's own
score function sums the values and performs NO Ace adjustment. -/
def serverCalcScore (cards : List Card) : Nat :=
  handSum cards

/-- The `while score > 21 and num_aces > 0` adjustment loop of
`BlackjackGame.calculate_score` (blackjack_game.py, lines 98-100). -/
def adjustAces : Nat → Nat → Nat
  | score, 0 => score
  | score, numAces + 1 => if score > 21 then adjustAces (score - 10) numAces else score

/-- Number of Aces in a hand (`num_aces` of blackjack_game.py). -/
def countAces (hand : List Card) : Nat :=
  (hand.filter (fun c => c.1 = 1)).length

/-- `BlackjackGame.calculate_score` (blackjack_game.py, lines 80-102):
sum with Ace = 11, then convert Aces from 11 to 1 while the score
exceeds 21. -/
def calculate_score (hand : List Card) : Nat :=
  adjustAces (handSum hand) (countAces hand)

/-- `BlackjackGame.RESHUFFLE_THRESHOLD = 5` (blackjack_game.py, line 15). -/
def RESHUFFLE_THRESHOLD : Nat := 5

/-- `_create_deck` / `create_deck`: the 52-card deck
`[(rank, suit) for suit in range(4) for rank in range(1, 14)]` in
generation order.  `random.shuffle` permutes it in place; the permutation
itself is not modelled, theorems depend only on length and contents. -/
def create_deck : List Card :=
  (List.range 4).flatMap (fun suit => (List.range 13).map (fun i => (i + 1, suit)))

/-- Python `list.pop()`: remove and return the LAST element.  `none`
models the `IndexError` on an empty list. -/
def listPop : List Card → Option (Card × List Card)
  | [] => none
  | [x] => some (x, [])
  | x :: y :: rest =>
    match listPop (y :: rest) with
    | none => none
    | some (z, l) => some (z, x :: l)

/-- `BlackjackGame._draw_card` (blackjack_game.py, lines 31-38):
regenerate the deck when fewer than `RESHUFFLE_THRESHOLD` cards remain,
then `pop()`. -/
def draw_card (deck : List Card) : Option (Card × List Card) :=
  let d := if deck.length < RESHUFFLE_THRESHOLD then create_deck else deck
  listPop d

/-- Iterated `_draw_card`: draw `n` cards in sequence, threading the
deck state, returning the drawn cards and final deck. -/
def drawN : Nat → List Card → Option (List Card × List Card)
  | 0, deck => some ([], deck)
  | n + 1, deck =>
    match draw_card deck with
    | none => none
    | some (c, deck1) =>
      match drawN n deck1 with
      | none => none
      | some (cs, d) => some (c :: cs, d)

/-- A `ServerPayload` as sent by `Server.play_round`: the three wire
fields that `pack_payload_server` receives. -/
structure Msg where
  result : Nat
  rank : Nat
  suit : Nat
deriving DecidableEq

/-- `Server.send_card` (server.py, lines 243-248): a card packet with
result code `RESULT_CONTINUE`. -/
def contMsg (c : Card) : Msg :=
  ⟨RESULT_CONTINUE, c.1, c.2⟩

/-- Outcome of the player-turn loop of `Server.play_round` (server.py,
lines 150-188): either the player busted (round over, `return True` with
the bust packet already sent) or stood (loop exits via `break`). -/
inductive PTOut where
  | busted (msgs : List Msg)
  | stood (msgs : List Msg) (playerHand : List Card) (deck : List Card)
deriving DecidableEq

/-- The player-turn loop of `Server.play_round` (server.py, lines
150-188), driven by the stream of successfully decoded decisions.  On
"Hit": pop a card, append, check `serverCalcScore`; above 21 send one
packet with `RESULT_LOSS` carrying the card and end the round, otherwise
send the card with `RESULT_CONTINUE` and loop.  On "Stand": exit.
`none` models the transport/decode failure paths (`return False`). -/
def playerTurn (deck : List Card) (playerHand : List Card) :
    List Decision → Option PTOut
  | [] => none
  | .Stand :: _ => some (.stood [] playerHand deck)
  | .Hit :: ds =>
    match listPop deck with
    | none => none
    | some (c, deck1) =>
      let hand1 := playerHand ++ [c]
      if serverCalcScore hand1 > 21 then
        some (.busted [⟨RESULT_LOSS, c.1, c.2⟩])
      else
        match playerTurn deck1 hand1 ds with
        | none => none
        | some (.busted msgs) => some (.busted (contMsg c :: msgs))
        | some (.stood msgs h dk) => some (.stood (contMsg c :: msgs) h dk)

/-- The dealer loop of `Server.play_round` (server.py, lines 197-213):
while `serverCalcScore` of the dealer hand is below 17, pop a card and
append; if the new score exceeds 21 send one packet with `RESULT_WIN`
carrying the card and end the round, otherwise send the card with
`RESULT_CONTINUE`.  The `Bool` is true when the dealer busted.  Fuel
bounds the recursion; `play_round` supplies the deck length, so fuel
exhaustion coincides with popping an empty deck (`IndexError`, caught by
`except Exception: return False`, modelled as `none`). -/
def dealerLoop : Nat → List Card → List Card → Option (List Msg × List Card × Bool)
  | 0, _, hand =>
    if serverCalcScore hand < 17 then none else some ([], hand, false)
  | fuel + 1, deck, hand =>
    if serverCalcScore hand < 17 then
      match listPop deck with
      | none => none
      | some (c, deck1) =>
        let hand1 := hand ++ [c]
        if serverCalcScore hand1 > 21 then
          some ([⟨RESULT_WIN, c.1, c.2⟩], hand1, true)
        else
          match dealerLoop fuel deck1 hand1 with
          | none => none
          | some (msgs, h, b) => some (contMsg c :: msgs, h, b)
    else some ([], hand, false)

/-- The initial deal of `Server.play_round` (server.py, lines 136-137):
four `deck.pop()` calls, two for the player then two for the dealer. -/
def initialDeal (deck : List Card) :
    Option ((Card × Card × Card × Card) × List Card) :=
  match listPop deck with
  | none => none
  | some (c1, deck1) =>
    match listPop deck1 with
    | none => none
    | some (c2, deck2) =>
      match listPop deck2 with
      | none => none
      | some (d1, deck3) =>
        match listPop deck3 with
        | none => none
        | some (d2, deck4) => some ((c1, c2, d1, d2), deck4)

/-- The final result-code chain of `Server.play_round` (server.py, lines
222-232) as it is actually reachable: `player_busted` and `dealer_busted`
are still `False` whenever this code runs (both bust paths `return`
earlier), leaving the pure score comparison. -/
def showdownCode (player_score dealer_score : Nat) : Nat :=
  if player_score > dealer_score then RESULT_WIN
  else if dealer_score > player_score then RESULT_LOSS
  else RESULT_TIE

/-- `Server.play_round` (server.py, lines 128-241), parameterised by the
shuffled deck and the stream of decoded player decisions, returning the
sequence of `ServerPayload` field triples sent on the successful-round
paths (`return True`); `none` collects every transport/protocol failure
path (`return False` or an uncaught exception). -/
def playRound (deck : List Card) (decisions : List Decision) : Option (List Msg) :=
  match initialDeal deck with
  | none => none
  | some ((c1, c2, d1, d2), deck4) =>
    match playerTurn deck4 [c1, c2] decisions with
    | none => none
    | some (.busted bmsgs) =>
      some ([contMsg c1, contMsg c2, contMsg d1] ++ bmsgs)
    | some (.stood pmsgs phand deck5) =>
      match dealerLoop deck5.length deck5 [d1, d2] with
      | none => none
      | some (dmsgs, _, true) =>
        some ([contMsg c1, contMsg c2, contMsg d1] ++ pmsgs ++ contMsg d2 :: dmsgs)
      | some (dmsgs, dhand, false) =>
        some ([contMsg c1, contMsg c2, contMsg d1] ++ pmsgs ++ contMsg d2 :: dmsgs
          ++ [⟨showdownCode (serverCalcScore phand) (serverCalcScore dhand), 0, 0⟩])

/-- The error paths of `Client.receive_and_print_card` (client.py, lines
296-336) visible after decoding: a decode failure re-raised, or the
`ValueError("Invalid card received ...")` on an out-of-range card with
result `RESULT_CONTINUE`. -/
inductive ClientCardError where
  | decodeError (e : DecodeError)
  | invalidCard (rank suit : Nat)
deriving DecidableEq

/-- The two normal outcomes of `Client.receive_and_print_card`: a card
rank returned to the round loop, or `False` meaning the round is over
with the given result code. -/
inductive CardEvent where
  | cardDealt (rank : Nat)
  | roundOver (result : Nat)
deriving DecidableEq

/-- Lines 318-336 of client.py, after a successful
`unpack_payload_server`: compute `is_valid_card`, and for
`RESULT_CONTINUE` either return the rank or raise on an invalid card;
for any other result code return `False` with no card validation. -/
def handle_payload (result rank suit : Nat) : Except ClientCardError CardEvent :=
  let is_valid_card := 1 ≤ rank ∧ rank ≤ 13 ∧ suit ≤ 3
  if result = RESULT_CONTINUE then
    if is_valid_card then .ok (.cardDealt rank)
    else .error (.invalidCard rank suit)
  else .ok (.roundOver result)

/-- `Client.receive_and_print_card` (client.py, lines 296-336) on an
already-received 9-byte buffer: decode, then handle the fields. -/
def receive_and_print_card (data : List Nat) : Except ClientCardError CardEvent :=
  match unpack_payload_server data with
  | .error e => .error (.decodeError e)
  | .ok (result, rank, suit) => handle_payload result rank suit

theorem listPop_some : ∀ {l : List Card} {c : Card} {l1 : List Card},
    listPop l = some (c, l1) → l = l1 ++ [c] := by
  intro l
  induction l with
  | nil => intro c l1 h; simp [listPop] at h
  | cons x xs ih =>
    intro c l1 h
    cases xs with
    | nil =>
      simp only [listPop, Option.some.injEq, Prod.mk.injEq] at h
      obtain ⟨rfl, rfl⟩ := h
      rfl
    | cons y rest =>
      simp only [listPop] at h
      cases hr : listPop (y :: rest) with
      | none => rw [hr] at h; simp at h
      | some p =>
        obtain ⟨z, m⟩ := p
        rw [hr] at h
        simp only [Option.some.injEq, Prod.mk.injEq] at h
        obtain ⟨rfl, rfl⟩ := h
        have hbase := ih hr
        rw [List.cons_append, ← hbase]

theorem listPop_isSome : ∀ (l : List Card), l ≠ [] → (listPop l).isSome := by
  intro l
  induction l with
  | nil => intro h; exact absurd rfl h
  | cons x xs ih =>
    intro _
    cases xs with
    | nil => simp [listPop]
    | cons y rest =>
      simp only [listPop]
      have hs := ih (by simp)
      cases hr : listPop (y :: rest) with
      | none => rw [hr] at hs; simp at hs
      | some p =>
        obtain ⟨z, m⟩ := p
        simp

theorem initialDeal_eq {deck deck4 : List Card} {c1 c2 d1 d2 : Card}
    (h : initialDeal deck = some ((c1, c2, d1, d2), deck4)) :
    deck = deck4 ++ [d2, d1, c2, c1] := by
  unfold initialDeal at h
  cases h1 : listPop deck with
  | none => rw [h1] at h; simp at h
  | some p1 =>
    obtain ⟨a1, l1⟩ := p1
    rw [h1] at h
    dsimp only at h
    cases h2 : listPop l1 with
    | none => rw [h2] at h; simp at h
    | some p2 =>
      obtain ⟨a2, l2⟩ := p2
      rw [h2] at h
      dsimp only at h
      cases h3 : listPop l2 with
      | none => rw [h3] at h; simp at h
      | some p3 =>
        obtain ⟨a3, l3⟩ := p3
        rw [h3] at h
        dsimp only at h
        cases h4 : listPop l3 with
        | none => rw [h4] at h; simp at h
        | some p4 =>
          obtain ⟨a4, l4⟩ := p4
          rw [h4] at h
          dsimp only at h
          simp only [Option.some.injEq, Prod.mk.injEq] at h
          obtain ⟨⟨rfl, rfl, rfl, rfl⟩, rfl⟩ := h
          have e1 := listPop_some h1
          have e2 := listPop_some h2
          have e3 := listPop_some h3
          have e4 := listPop_some h4
          rw [e1, e2, e3, e4]
          simp

theorem playerTurn_busted_shape :
    ∀ (ds : List Decision) (deck hand : List Card) (bmsgs : List Msg),
    playerTurn deck hand ds = some (.busted bmsgs) →
    ∃ drawn c, bmsgs = drawn.map contMsg ++ [⟨RESULT_LOSS, c.1, c.2⟩]
      ∧ serverCalcScore (hand ++ drawn ++ [c]) > 21
      ∧ ∀ x ∈ drawn ++ [c], x ∈ deck := by
  intro ds
  induction ds with
  | nil => intro deck hand bmsgs h; simp [playerTurn] at h
  | cons d ds ih =>
    intro deck hand bmsgs h
    cases d with
    | Stand => simp [playerTurn] at h
    | Hit =>
      simp only [playerTurn] at h
      cases hp : listPop deck with
      | none => rw [hp] at h; simp at h
      | some p =>
        obtain ⟨c, deck1⟩ := p
        rw [hp] at h
        dsimp only at h
        have hdk := listPop_some hp
        by_cases hb : serverCalcScore (hand ++ [c]) > 21
        · rw [if_pos hb] at h
          simp only [Option.some.injEq, PTOut.busted.injEq] at h
          subst h
          refine ⟨[], c, by simp, by simpa using hb, ?_⟩
          intro x hx
          simp only [List.nil_append, List.mem_singleton] at hx
          subst hx
          rw [hdk]; simp
        · rw [if_neg hb] at h
          cases hr : playerTurn deck1 (hand ++ [c]) ds with
          | none => rw [hr] at h; simp at h
          | some out =>
            rw [hr] at h
            cases out with
            | stood msgs ph dk => simp at h
            | busted msgs =>
              simp only [Option.some.injEq, PTOut.busted.injEq] at h
              subst h
              obtain ⟨drawn, c2, e1, e2, e3⟩ := ih deck1 (hand ++ [c]) msgs hr
              refine ⟨c :: drawn, c2, by simp [e1], ?_, ?_⟩
              · have ha : hand ++ (c :: drawn) ++ [c2]
                    = (hand ++ [c]) ++ drawn ++ [c2] := by simp
                rw [ha]; exact e2
              · intro x hx
                rw [hdk]
                simp only [List.cons_append, List.mem_cons] at hx
                rcases hx with rfl | hx1
                · simp
                · have := e3 x hx1
                  simp [this]

theorem playerTurn_stood_shape :
    ∀ (ds : List Decision) (deck hand : List Card) (pmsgs : List Msg)
      (phand deck5 : List Card),
    playerTurn deck hand ds = some (.stood pmsgs phand deck5) →
    ∃ drawn, pmsgs = drawn.map contMsg
      ∧ phand = hand ++ drawn
      ∧ (∀ x ∈ drawn, x ∈ deck)
      ∧ (∀ x ∈ deck5, x ∈ deck) := by
  intro ds
  induction ds with
  | nil => intro deck hand pmsgs phand deck5 h; simp [playerTurn] at h
  | cons d ds ih =>
    intro deck hand pmsgs phand deck5 h
    cases d with
    | Stand =>
      simp only [playerTurn, Option.some.injEq, PTOut.stood.injEq] at h
      obtain ⟨rfl, rfl, rfl⟩ := h
      exact ⟨[], by simp, by simp, by simp, fun x hx => hx⟩
    | Hit =>
      simp only [playerTurn] at h
      cases hp : listPop deck with
      | none => rw [hp] at h; simp at h
      | some p =>
        obtain ⟨c, deck1⟩ := p
        rw [hp] at h
        dsimp only at h
        have hdk := listPop_some hp
        by_cases hb : serverCalcScore (hand ++ [c]) > 21
        · rw [if_pos hb] at h; simp at h
        · rw [if_neg hb] at h
          cases hr : playerTurn deck1 (hand ++ [c]) ds with
          | none => rw [hr] at h; simp at h
          | some out =>
            rw [hr] at h
            cases out with
            | busted msgs => simp at h
            | stood msgs ph dk =>
              simp only [Option.some.injEq, PTOut.stood.injEq] at h
              obtain ⟨rfl, rfl, rfl⟩ := h
              obtain ⟨drawn, e1, e2, e3, e4⟩ := ih deck1 (hand ++ [c]) msgs ph dk hr
              refine ⟨c :: drawn, by simp [e1], by simp [e2], ?_, ?_⟩
              · intro x hx
                rw [hdk]
                rcases List.mem_cons.mp hx with hx1 | hx1
                · subst hx1; simp
                · have := e3 x hx1
                  simp [this]
              · intro x hx
                rw [hdk]
                have := e4 x hx
                simp [this]

theorem dealerLoop_shape :
    ∀ (fuel : Nat) (deck hand : List Card) (msgs : List Msg)
      (hand1 : List Card) (b : Bool),
    dealerLoop fuel deck hand = some (msgs, hand1, b) →
    ∃ drawn, hand1 = hand ++ drawn
      ∧ (∀ x ∈ drawn, x ∈ deck)
      ∧ (∀ k, k < drawn.length → serverCalcScore (hand ++ drawn.take k) < 17)
      ∧ (b = true → ∃ pre c, drawn = pre ++ [c]
          ∧ msgs = pre.map contMsg ++ [⟨RESULT_WIN, c.1, c.2⟩]
          ∧ serverCalcScore hand1 > 21)
      ∧ (b = false → msgs = drawn.map contMsg ∧ 17 ≤ serverCalcScore hand1) := by
  intro fuel
  induction fuel with
  | zero =>
    intro deck hand msgs hand1 b h
    simp only [dealerLoop] at h
    by_cases hs : serverCalcScore hand < 17
    · rw [if_pos hs] at h; simp at h
    · rw [if_neg hs] at h
      simp only [Option.some.injEq, Prod.mk.injEq] at h
      obtain ⟨rfl, rfl, rfl⟩ := h
      exact ⟨[], by simp, by simp, by simp, by simp, fun _ => ⟨by simp, by omega⟩⟩
  | succ fuel ih =>
    intro deck hand msgs hand1 b h
    simp only [dealerLoop] at h
    by_cases hs : serverCalcScore hand < 17
    · rw [if_pos hs] at h
      cases hp : listPop deck with
      | none => rw [hp] at h; simp at h
      | some p =>
        obtain ⟨c, deck1⟩ := p
        rw [hp] at h
        dsimp only at h
        have hdk := listPop_some hp
        by_cases hb : serverCalcScore (hand ++ [c]) > 21
        · rw [if_pos hb] at h
          simp only [Option.some.injEq, Prod.mk.injEq] at h
          obtain ⟨rfl, rfl, rfl⟩ := h
          refine ⟨[c], rfl, ?_, ?_, ?_, by simp⟩
          · intro x hx
            rw [hdk]
            simp only [List.mem_singleton] at hx
            subst hx; simp
          · intro k hk
            have hk0 : k = 0 := by simpa using hk
            subst hk0
            simpa using hs
          · intro _
            exact ⟨[], c, by simp, by simp, hb⟩
        · rw [if_neg hb] at h
          cases hr : dealerLoop fuel deck1 (hand ++ [c]) with
          | none => rw [hr] at h; simp at h
          | some out =>
            obtain ⟨msgs2, h2, b2⟩ := out
            rw [hr] at h
            dsimp only at h
            simp only [Option.some.injEq, Prod.mk.injEq] at h
            obtain ⟨rfl, rfl, rfl⟩ := h
            obtain ⟨drawn, e1, e2, e3, e4, e5⟩ := ih deck1 (hand ++ [c]) msgs2 h2 b2 hr
            refine ⟨c :: drawn, by simp [e1], ?_, ?_, ?_, ?_⟩
            · intro x hx
              rw [hdk]
              rcases List.mem_cons.mp hx with hx1 | hx1
              · subst hx1; simp
              · have := e2 x hx1
                simp [this]
            · intro k hk
              cases k with
              | zero => simpa using hs
              | succ k =>
                have hklt : k < drawn.length := by
                  simpa using hk
                have := e3 k hklt
                simpa using this
            · intro hbt
              obtain ⟨pre, c2, f1, f2, f3⟩ := e4 hbt
              exact ⟨c :: pre, c2, by simp [f1], by simp [f2], f3⟩
            · intro hbf
              obtain ⟨f1, f2⟩ := e5 hbf
              exact ⟨by simp [f1], f2⟩
    · rw [if_neg hs] at h
      simp only [Option.some.injEq, Prod.mk.injEq] at h
      obtain ⟨rfl, rfl, rfl⟩ := h
      exact ⟨[], by simp, by simp, by simp, by simp, fun _ => ⟨by simp, by omega⟩⟩

theorem playRound_cases {deck : List Card} {ds : List Decision} {msgs : List Msg}
    (h : playRound deck ds = some msgs) :
    ∃ c1 c2 d1 d2 deck4, initialDeal deck = some ((c1, c2, d1, d2), deck4) ∧
      ((∃ bmsgs, playerTurn deck4 [c1, c2] ds = some (.busted bmsgs) ∧
          msgs = [contMsg c1, contMsg c2, contMsg d1] ++ bmsgs)
       ∨ (∃ pmsgs phand deck5 dmsgs dhand,
           playerTurn deck4 [c1, c2] ds = some (.stood pmsgs phand deck5) ∧
           ((dealerLoop deck5.length deck5 [d1, d2] = some (dmsgs, dhand, true) ∧
             msgs = [contMsg c1, contMsg c2, contMsg d1] ++ pmsgs ++ contMsg d2 :: dmsgs)
            ∨ (dealerLoop deck5.length deck5 [d1, d2] = some (dmsgs, dhand, false) ∧
             msgs = [contMsg c1, contMsg c2, contMsg d1] ++ pmsgs ++ contMsg d2 :: dmsgs
               ++ [⟨showdownCode (serverCalcScore phand) (serverCalcScore dhand), 0, 0⟩])))) := by
  unfold playRound at h
  cases hd : initialDeal deck with
  | none => rw [hd] at h; simp at h
  | some q =>
    obtain ⟨⟨c1, c2, d1, d2⟩, deck4⟩ := q
    rw [hd] at h
    dsimp only at h
    refine ⟨c1, c2, d1, d2, deck4, rfl, ?_⟩
    cases hp : playerTurn deck4 [c1, c2] ds with
    | none => rw [hp] at h; simp at h
    | some out =>
      rw [hp] at h
      cases out with
      | busted bmsgs =>
        refine Or.inl ⟨bmsgs, rfl, ?_⟩
        have h2 : some ([contMsg c1, contMsg c2, contMsg d1] ++ bmsgs) = some msgs := h
        exact (Option.some.injEq _ _ ▸ h2).symm
      | stood pmsgs phand deck5 =>
        dsimp only at h
        cases hdl : dealerLoop deck5.length deck5 [d1, d2] with
        | none => rw [hdl] at h; simp at h
        | some r =>
          obtain ⟨dmsgs, dhand, b⟩ := r
          rw [hdl] at h
          cases b with
          | true =>
            refine Or.inr ⟨pmsgs, phand, deck5, dmsgs, dhand, rfl, Or.inl ⟨hdl, ?_⟩⟩
            have h2 : some ([contMsg c1, contMsg c2, contMsg d1] ++ pmsgs
                ++ contMsg d2 :: dmsgs) = some msgs := h
            exact (Option.some.injEq _ _ ▸ h2).symm
          | false =>
            refine Or.inr ⟨pmsgs, phand, deck5, dmsgs, dhand, rfl, Or.inr ⟨hdl, ?_⟩⟩
            have h2 : some ([contMsg c1, contMsg c2, contMsg d1] ++ pmsgs
                ++ contMsg d2 :: dmsgs
                ++ [⟨showdownCode (serverCalcScore phand) (serverCalcScore dhand), 0, 0⟩])
                = some msgs := h
            exact (Option.some.injEq _ _ ▸ h2).symm

theorem map_contMsg_result {m : Msg} {l : List Card} (h : m ∈ l.map contMsg) :
    m.result = RESULT_CONTINUE := by
  obtain ⟨c, hc, rfl⟩ := List.mem_map.mp h
  rfl

theorem init_results {m : Msg} {c1 c2 d1 : Card}
    (h : m ∈ [contMsg c1, contMsg c2, contMsg d1]) : m.result = RESULT_CONTINUE := by
  rcases List.mem_cons.mp h with rfl | h
  · rfl
  rcases List.mem_cons.mp h with rfl | h
  · rfl
  rcases List.mem_cons.mp h with rfl | h
  · rfl
  simp at h

theorem showdownCode_cases (a b : Nat) :
    showdownCode a b = RESULT_TIE ∨ showdownCode a b = RESULT_LOSS
      ∨ showdownCode a b = RESULT_WIN := by
  unfold showdownCode
  split_ifs
  · exact Or.inr (Or.inr rfl)
  · exact Or.inr (Or.inl rfl)
  · exact Or.inl rfl

/-- C6: every round that `play_round` completes without a
transport/protocol failure sends exactly one terminal `ServerPayload`
(Tie 0x1, Loss 0x2 or Win 0x3) — it is the last message of the round and
every earlier message of the round carries `RESULT_CONTINUE`; and when
the round resolves by score comparison (dealer stood at 17 or more
without busting) that single terminal message has its card rank and suit
fields zeroed. -/
theorem one_outcome_message_per_round :
    (∀ (deck : List Card) (ds : List Decision) (msgs : List Msg),
      playRound deck ds = some msgs →
      ∃ pre last, msgs = pre ++ [last]
        ∧ (∀ m ∈ pre, m.result = RESULT_CONTINUE)
        ∧ (last.result = RESULT_TIE ∨ last.result = RESULT_LOSS
            ∨ last.result = RESULT_WIN))
    ∧ (∀ (deck : List Card) (ds : List Decision) (msgs : List Msg)
        (c1 c2 d1 d2 : Card) (deck4 : List Card) (pmsgs : List Msg)
        (phand deck5 : List Card) (dmsgs : List Msg) (dhand : List Card),
      initialDeal deck = some ((c1, c2, d1, d2), deck4) →
      playerTurn deck4 [c1, c2] ds = some (.stood pmsgs phand deck5) →
      dealerLoop deck5.length deck5 [d1, d2] = some (dmsgs, dhand, false) →
      playRound deck ds = some msgs →
      msgs.getLast? = some ⟨showdownCode (serverCalcScore phand)
        (serverCalcScore dhand), 0, 0⟩) := by
  constructor
  · intro deck ds msgs h
    obtain ⟨c1, c2, d1, d2, deck4, hd, hcase⟩ := playRound_cases h
    rcases hcase with ⟨bmsgs, hp, hm⟩ |
      ⟨pmsgs, phand, deck5, dmsgs, dhand, hp, hcase2⟩
    · obtain ⟨drawn, c, e1, e2, e3⟩ :=
        playerTurn_busted_shape ds deck4 [c1, c2] bmsgs hp
      refine ⟨[contMsg c1, contMsg c2, contMsg d1] ++ drawn.map contMsg,
        ⟨RESULT_LOSS, c.1, c.2⟩, ?_, ?_, Or.inr (Or.inl rfl)⟩
      · rw [hm, e1]; simp
      · intro m hm2
        rcases List.mem_append.mp hm2 with h1 | h1
        · exact init_results h1
        · exact map_contMsg_result h1
    · obtain ⟨drawnP, f1, f2, f3, f4⟩ :=
        playerTurn_stood_shape ds deck4 [c1, c2] pmsgs phand deck5 hp
      rcases hcase2 with ⟨hdl, hm⟩ | ⟨hdl, hm⟩
      · obtain ⟨drawnD, g1, g2, g3, g4, g5⟩ :=
          dealerLoop_shape deck5.length deck5 [d1, d2] dmsgs dhand true hdl
        obtain ⟨pre2, c, k1, k2, k3⟩ := g4 rfl
        refine ⟨[contMsg c1, contMsg c2, contMsg d1] ++ pmsgs
          ++ contMsg d2 :: pre2.map contMsg,
          ⟨RESULT_WIN, c.1, c.2⟩, ?_, ?_, Or.inr (Or.inr rfl)⟩
        · rw [hm, k2]; simp
        · intro m hm2
          rcases List.mem_append.mp hm2 with h1 | h1
          · rcases List.mem_append.mp h1 with h2 | h2
            · exact init_results h2
            · subst f1; exact map_contMsg_result h2
          · rcases List.mem_cons.mp h1 with rfl | h3
            · rfl
            · exact map_contMsg_result h3
      · obtain ⟨drawnD, g1, g2, g3, g4, g5⟩ :=
          dealerLoop_shape deck5.length deck5 [d1, d2] dmsgs dhand false hdl
        obtain ⟨k1, k2⟩ := g5 rfl
        refine ⟨[contMsg c1, contMsg c2, contMsg d1] ++ pmsgs
          ++ contMsg d2 :: dmsgs,
          ⟨showdownCode (serverCalcScore phand) (serverCalcScore dhand), 0, 0⟩,
          ?_, ?_, ?_⟩
        · rw [hm]
        · intro m hm2
          rcases List.mem_append.mp hm2 with h1 | h1
          · rcases List.mem_append.mp h1 with h2 | h2
            · exact init_results h2
            · subst f1; exact map_contMsg_result h2
          · rcases List.mem_cons.mp h1 with rfl | h3
            · rfl
            · subst k1; exact map_contMsg_result h3
        · exact showdownCode_cases _ _
  · intro deck ds msgs c1 c2 d1 d2 deck4 pmsgs phand deck5 dmsgs dhand
      hd hp hdl h
    have hval : playRound deck ds
        = some ([contMsg c1, contMsg c2, contMsg d1] ++ pmsgs ++ contMsg d2 :: dmsgs
          ++ [⟨showdownCode (serverCalcScore phand) (serverCalcScore dhand), 0, 0⟩]) := by
      unfold playRound
      rw [hd]
      dsimp only
      rw [hp]
      dsimp only
      rw [hdl]
    rw [h] at hval
    have hmsgs := Option.some.inj hval
    rw [hmsgs]
    have : [contMsg c1, contMsg c2, contMsg d1] ++ pmsgs ++ contMsg d2 :: dmsgs
        ++ [⟨showdownCode (serverCalcScore phand) (serverCalcScore dhand), 0, 0⟩]
        = ([contMsg c1, contMsg c2, contMsg d1] ++ pmsgs ++ contMsg d2 :: dmsgs)
          ++ [⟨showdownCode (serverCalcScore phand) (serverCalcScore dhand), 0, 0⟩] := by
      simp
    rw [this, List.getLast?_concat]

theorem playRound_busted_eq {deck : List Card} {ds : List Decision}
    {msgs : List Msg} {c1 c2 d1 d2 : Card} {deck4 : List Card} {bmsgs : List Msg}
    (hd : initialDeal deck = some ((c1, c2, d1, d2), deck4))
    (hp : playerTurn deck4 [c1, c2] ds = some (.busted bmsgs))
    (h : playRound deck ds = some msgs) :
    msgs = [contMsg c1, contMsg c2, contMsg d1] ++ bmsgs := by
  have hval : playRound deck ds
      = some ([contMsg c1, contMsg c2, contMsg d1] ++ bmsgs) := by
    unfold playRound
    rw [hd]
    dsimp only
    rw [hp]
  rw [h] at hval
  exact Option.some.inj hval

/-- C2: when a player Hit pushes the player's hand score (as the server
computes it) above 21, the server sends exactly one `ServerPayload` with
result code Loss(0x2) carrying the just-drawn card, every earlier message
of the round carries `RESULT_CONTINUE`, and that Loss message is the last
message of the round — no dealer turn runs and no separate outcome
message follows. -/
theorem player_bust_message_is_round_end
    (deck : List Card) (ds : List Decision) (msgs : List Msg)
    (c1 c2 d1 d2 : Card) (deck4 : List Card) (bmsgs : List Msg)
    (hd : initialDeal deck = some ((c1, c2, d1, d2), deck4))
    (hp : playerTurn deck4 [c1, c2] ds = some (.busted bmsgs))
    (h : playRound deck ds = some msgs) :
    ∃ drawn c,
      msgs = ([contMsg c1, contMsg c2, contMsg d1] ++ drawn.map contMsg)
        ++ [⟨RESULT_LOSS, c.1, c.2⟩]
      ∧ serverCalcScore ([c1, c2] ++ drawn ++ [c]) > 21
      ∧ (∀ m ∈ [contMsg c1, contMsg c2, contMsg d1] ++ drawn.map contMsg,
          m.result = RESULT_CONTINUE)
      ∧ msgs.getLast? = some ⟨RESULT_LOSS, c.1, c.2⟩ := by
  have hmsgs := playRound_busted_eq hd hp h
  obtain ⟨drawn, c, e1, e2, e3⟩ :=
    playerTurn_busted_shape ds deck4 [c1, c2] bmsgs hp
  refine ⟨drawn, c, ?_, e2, ?_, ?_⟩
  · rw [hmsgs, e1]; simp
  · intro m hm2
    rcases List.mem_append.mp hm2 with h1 | h1
    · exact init_results h1
    · exact map_contMsg_result h1
  · rw [hmsgs, e1]
    have hassoc : [contMsg c1, contMsg c2, contMsg d1]
        ++ (drawn.map contMsg ++ [(⟨RESULT_LOSS, c.1, c.2⟩ : Msg)])
        = ([contMsg c1, contMsg c2, contMsg d1] ++ drawn.map contMsg)
          ++ [(⟨RESULT_LOSS, c.1, c.2⟩ : Msg)] := by
      simp
    rw [hassoc, List.getLast?_concat]

/-- C3: the dealer-turn loop runs only after the player Stands — after a
player bust the round trace is exactly the deal plus the player-turn
messages, with no dealer messages; each dealer draw happens only while
the dealer hand scores below 17; and the loop terminates either with a
final score of at least 17 (all of its messages carrying
`RESULT_CONTINUE`) or by busting, in which case the message carrying the
busting card has result code Win(0x3), is the loop's last message, and
no further dealer draws occur. -/
theorem dealer_loop_behaviour :
    (∀ (fuel : Nat) (deck hand : List Card) (msgs : List Msg)
        (hand1 : List Card) (b : Bool),
      dealerLoop fuel deck hand = some (msgs, hand1, b) →
      ∃ drawn, hand1 = hand ++ drawn
        ∧ (∀ k, k < drawn.length → serverCalcScore (hand ++ drawn.take k) < 17)
        ∧ (b = true → ∃ pre c, drawn = pre ++ [c]
            ∧ msgs = pre.map contMsg ++ [⟨RESULT_WIN, c.1, c.2⟩]
            ∧ serverCalcScore hand1 > 21
            ∧ (∀ m ∈ pre.map contMsg, m.result = RESULT_CONTINUE))
        ∧ (b = false → msgs = drawn.map contMsg ∧ 17 ≤ serverCalcScore hand1))
    ∧ (∀ (deck : List Card) (ds : List Decision) (msgs : List Msg)
        (c1 c2 d1 d2 : Card) (deck4 : List Card) (bmsgs : List Msg),
      initialDeal deck = some ((c1, c2, d1, d2), deck4) →
      playerTurn deck4 [c1, c2] ds = some (.busted bmsgs) →
      playRound deck ds = some msgs →
      msgs = [contMsg c1, contMsg c2, contMsg d1] ++ bmsgs) := by
  constructor
  · intro fuel deck hand msgs hand1 b h
    obtain ⟨drawn, e1, e2, e3, e4, e5⟩ :=
      dealerLoop_shape fuel deck hand msgs hand1 b h
    refine ⟨drawn, e1, e3, ?_, e5⟩
    intro hb
    obtain ⟨pre, c, k1, k2, k3⟩ := e4 hb
    exact ⟨pre, c, k1, k2, k3, fun m hm => map_contMsg_result hm⟩
  · intro deck ds msgs c1 c2 d1 d2 deck4 bmsgs hd hp h
    exact playRound_busted_eq hd hp h

/-- C9: the `ServerPayload` carrying the dealer's second (hidden) card is
never sent before the player's turn has ended: on a player bust no
message of the round carries the hidden card at all, and on a Stand the
round trace is the three initial-deal messages (two player cards and the
dealer's first card only), the player-turn messages — none of which
carries the hidden card — and only then the hidden card at the start of
the dealer turn. -/
theorem hidden_card_held_back
    (deck : List Card) (ds : List Decision) (msgs : List Msg)
    (c1 c2 d1 d2 : Card) (deck4 : List Card)
    (hnd : deck.Nodup)
    (hd : initialDeal deck = some ((c1, c2, d1, d2), deck4))
    (h : playRound deck ds = some msgs) :
    (∀ bmsgs, playerTurn deck4 [c1, c2] ds = some (.busted bmsgs) →
      ∀ m ∈ msgs, (m.rank, m.suit) ≠ d2)
    ∧ (∀ pmsgs phand deck5,
        playerTurn deck4 [c1, c2] ds = some (.stood pmsgs phand deck5) →
        ∃ rest, msgs = [contMsg c1, contMsg c2, contMsg d1] ++ pmsgs
            ++ contMsg d2 :: rest
          ∧ ∀ m ∈ [contMsg c1, contMsg c2, contMsg d1] ++ pmsgs,
              (m.rank, m.suit) ≠ d2) := by
  have hdeck := initialDeal_eq hd
  rw [hdeck] at hnd
  rw [List.nodup_append] at hnd
  obtain ⟨hnd4, hndt, hdisj⟩ := hnd
  have hne4 : ∀ x ∈ deck4, x ≠ d2 := by
    intro x hx he
    exact hdisj hx (by rw [he]; simp)
  have hne_c1 : c1 ≠ d2 := by
    simp only [List.nodup_cons, List.mem_cons, List.mem_singleton,
      List.not_mem_nil] at hndt
    tauto
  have hne_c2 : c2 ≠ d2 := by
    simp only [List.nodup_cons, List.mem_cons, List.mem_singleton,
      List.not_mem_nil] at hndt
    tauto
  have hne_d1 : d1 ≠ d2 := by
    simp only [List.nodup_cons, List.mem_cons, List.mem_singleton,
      List.not_mem_nil] at hndt
    tauto
  have hinit : ∀ m ∈ [contMsg c1, contMsg c2, contMsg d1],
      (m.rank, m.suit) ≠ d2 := by
    intro m hm
    rcases List.mem_cons.mp hm with rfl | hm
    · simpa [contMsg] using hne_c1
    rcases List.mem_cons.mp hm with rfl | hm
    · simpa [contMsg] using hne_c2
    rcases List.mem_cons.mp hm with rfl | hm
    · simpa [contMsg] using hne_d1
    simp at hm
  constructor
  · intro bmsgs hp m hm
    have hmsgs := playRound_busted_eq hd hp h
    obtain ⟨drawn, c, e1, e2, e3⟩ :=
      playerTurn_busted_shape ds deck4 [c1, c2] bmsgs hp
    rw [hmsgs, e1] at hm
    rcases List.mem_append.mp hm with h1 | h1
    · exact hinit m h1
    rcases List.mem_append.mp h1 with h2 | h2
    · obtain ⟨x, hx, rfl⟩ := List.mem_map.mp h2
      have hxd : x ∈ deck4 := e3 x (by simp [hx])
      simpa [contMsg] using hne4 x hxd
    · have hmeq : m = ⟨RESULT_LOSS, c.1, c.2⟩ := by simpa using h2
      subst hmeq
      have hcd : c ∈ deck4 := e3 c (by simp)
      simpa using hne4 c hcd
  · intro pmsgs phand deck5 hp
    obtain ⟨c1', c2', d1', d2', deck4', hd', hcase⟩ := playRound_cases h
    rw [hd] at hd'
    simp only [Option.some.injEq, Prod.mk.injEq] at hd'
    obtain ⟨⟨rfl, rfl, rfl, rfl⟩, rfl⟩ := hd'
    obtain ⟨drawnP, f1, f2, f3, f4⟩ :=
      playerTurn_stood_shape ds deck4 [c1, c2] pmsgs phand deck5 hp
    have hpm : ∀ m ∈ [contMsg c1, contMsg c2, contMsg d1] ++ pmsgs,
        (m.rank, m.suit) ≠ d2 := by
      intro m hm
      rcases List.mem_append.mp hm with h1 | h1
      · exact hinit m h1
      · subst f1
        obtain ⟨x, hx, rfl⟩ := List.mem_map.mp h1
        have hxd : x ∈ deck4 := f3 x hx
        simpa [contMsg] using hne4 x hxd
    rcases hcase with ⟨bmsgs, hp', _⟩ |
      ⟨pmsgs2, phand2, deck52, dmsgs, dhand, hp', hcase2⟩
    · rw [hp] at hp'
      simp at hp'
    · rw [hp] at hp'
      simp only [Option.some.injEq, PTOut.stood.injEq] at hp'
      obtain ⟨rfl, rfl, rfl⟩ := hp'
      rcases hcase2 with ⟨hdl, hm⟩ | ⟨hdl, hm⟩
      · exact ⟨dmsgs, hm, hpm⟩
      · refine ⟨dmsgs ++ [⟨showdownCode (serverCalcScore phand)
          (serverCalcScore dhand), 0, 0⟩], ?_, hpm⟩
        rw [hm]
        simp

theorem dropWhile_length_le {p : Nat → Bool} (l : List Nat) :
    (l.dropWhile p).length ≤ l.length :=
  (List.dropWhile_suffix p).sublist.length_le

theorem dropWhile_eq_self_of_length {p : Nat → Bool} :
    ∀ (l : List Nat), (l.dropWhile p).length = l.length → l.dropWhile p = l := by
  intro l
  induction l with
  | nil => intro _; rfl
  | cons x xs ih =>
    intro h
    rw [List.dropWhile_cons] at h ⊢
    by_cases hp : p x
    · rw [if_pos hp] at h
      have hle := dropWhile_length_le (p := p) xs
      simp only [List.length_cons] at h
      omega
    · rw [if_neg hp]

theorem stripNulls_eq_self_of_length :
    ∀ (l : List Nat), (stripNulls l).length = l.length → stripNulls l = l := by
  intro l h
  unfold stripNulls at h ⊢
  rw [List.length_reverse] at h
  have e1 := dropWhile_length_le (p := fun b => decide (b = 0)) l
  have e2 := dropWhile_length_le (p := fun b => decide (b = 0))
    (l.dropWhile (fun b => decide (b = 0))).reverse
  rw [List.length_reverse] at e2
  have hinner : (l.dropWhile (fun b => decide (b = 0))).length = l.length := by
    omega
  have hd1 := dropWhile_eq_self_of_length l hinner
  rw [hd1] at h ⊢
  have houter : (l.reverse.dropWhile (fun b => decide (b = 0))).length
      = l.reverse.length := by
    rw [List.length_reverse]
    exact h
  have hd2 := dropWhile_eq_self_of_length l.reverse houter
  rw [hd2]
  exact List.reverse_reverse l

theorem stripNulls_inj_of_length {l w : List Nat} (hl : l.length = w.length)
    (h : stripNulls l = w) : l = w := by
  have hlen : (stripNulls l).length = l.length := by rw [h, hl]
  have := stripNulls_eq_self_of_length l hlen
  rw [← this, h]

/-- C5: the four decode errors are raised under exactly the stated
conditions.  `unpack_request`: `MalformedMessage` below 38 bytes,
`BadMagic` when the leading 4 bytes mismatch, `UnexpectedType` when the
tag is not `MSG_REQUEST`, success otherwise.  `unpack_player_decision`:
`MalformedMessage` below 10 bytes, `BadMagic`/`UnexpectedType` likewise,
and with a valid header it succeeds exactly when the 5-byte decision
field is literally `"Hittt"` (giving Hit) or `"Stand"` (giving Stand) —
an exact-string comparison — and raises `InvalidDecision` on every other
field value. -/
theorem decode_error_taxonomy :
    (∀ data : List Nat, data.length < 38 →
      unpack_request data = .error .MalformedMessage)
    ∧ (∀ data : List Nat, 38 ≤ data.length →
        bytesToNatBE (data.take 4) ≠ MAGIC_COOKIE →
        unpack_request data = .error .BadMagic)
    ∧ (∀ data : List Nat, 38 ≤ data.length →
        bytesToNatBE (data.take 4) = MAGIC_COOKIE → data.getD 4 0 ≠ MSG_REQUEST →
        unpack_request data = .error .UnexpectedType)
    ∧ (∀ data : List Nat, 38 ≤ data.length →
        bytesToNatBE (data.take 4) = MAGIC_COOKIE → data.getD 4 0 = MSG_REQUEST →
        unpack_request data = .ok (data.getD 5 0, stripNulls ((data.drop 6).take 32)))
    ∧ (∀ data : List Nat, data.length < 10 →
        unpack_player_decision data = .error .MalformedMessage)
    ∧ (∀ data : List Nat, 10 ≤ data.length →
        bytesToNatBE (data.take 4) ≠ MAGIC_COOKIE →
        unpack_player_decision data = .error .BadMagic)
    ∧ (∀ data : List Nat, 10 ≤ data.length →
        bytesToNatBE (data.take 4) = MAGIC_COOKIE → data.getD 4 0 ≠ MSG_PAYLOAD →
        unpack_player_decision data = .error .UnexpectedType)
    ∧ (∀ data : List Nat, 10 ≤ data.length →
        bytesToNatBE (data.take 4) = MAGIC_COOKIE → data.getD 4 0 = MSG_PAYLOAD →
        ((data.drop 5).take 5 ≠ hitttBytes → (data.drop 5).take 5 ≠ standBytes →
          unpack_player_decision data = .error .InvalidDecision)
        ∧ (unpack_player_decision data = .ok .Hit ↔ (data.drop 5).take 5 = hitttBytes)
        ∧ (unpack_player_decision data = .ok .Stand ↔ (data.drop 5).take 5 = standBytes)) := by
  have hflen : ∀ data : List Nat, 10 ≤ data.length →
      ((data.drop 5).take 5).length = 5 := by
    intro data h10
    rw [List.length_take, List.length_drop]
    omega
  refine ⟨?_, ?_, ?_, ?_, ?_, ?_, ?_, ?_⟩
  · intro data h
    unfold unpack_request
    rw [if_pos h]
  · intro data h38 hm
    unfold unpack_request
    rw [if_neg (by omega), if_pos hm]
  · intro data h38 hm ht
    unfold unpack_request
    rw [if_neg (by omega), if_neg (not_not.mpr hm), if_pos ht]
  · intro data h38 hm ht
    unfold unpack_request
    rw [if_neg (by omega), if_neg (not_not.mpr hm), if_neg (not_not.mpr ht)]
  · intro data h
    unfold unpack_player_decision
    rw [if_pos h]
  · intro data h10 hm
    unfold unpack_player_decision
    rw [if_neg (by omega), if_pos hm]
  · intro data h10 hm ht
    unfold unpack_player_decision
    rw [if_neg (by omega), if_neg (not_not.mpr hm), if_pos ht]
  · intro data h10 hm ht
    have heval : unpack_player_decision data =
        (if stripNulls ((data.drop 5).take 5) = hitttBytes then .ok .Hit
         else if stripNulls ((data.drop 5).take 5) = standBytes then .ok .Stand
         else .error .InvalidDecision) := by
      unfold unpack_player_decision
      rw [if_neg (by omega), if_neg (not_not.mpr hm), if_neg (not_not.mpr ht)]
    have hlen5 := hflen data h10
    refine ⟨?_, ?_, ?_⟩
    · intro hne1 hne2
      rw [heval]
      rw [if_neg, if_neg]
      · intro hs
        exact hne2 (stripNulls_inj_of_length (by rw [hlen5]; rfl) hs)
      · intro hs
        exact hne1 (stripNulls_inj_of_length (by rw [hlen5]; rfl) hs)
    · rw [heval]
      constructor
      · intro hok
        by_cases h1 : stripNulls ((data.drop 5).take 5) = hitttBytes
        · exact stripNulls_inj_of_length (by rw [hlen5]; rfl) h1
        · rw [if_neg h1] at hok
          by_cases h2 : stripNulls ((data.drop 5).take 5) = standBytes
          · rw [if_pos h2] at hok
            simp at hok
          · rw [if_neg h2] at hok
            simp at hok
      · intro hf
        rw [hf]
        rw [if_pos (by decide)]
    · rw [heval]
      constructor
      · intro hok
        by_cases h1 : stripNulls ((data.drop 5).take 5) = hitttBytes
        · rw [if_pos h1] at hok
          simp at hok
        · rw [if_neg h1] at hok
          by_cases h2 : stripNulls ((data.drop 5).take 5) = standBytes
          · exact stripNulls_inj_of_length (by rw [hlen5]; rfl) h2
          · rw [if_neg h2] at hok
            simp at hok
      · intro hf
        rw [hf]
        rw [if_neg (by decide), if_pos (by decide)]

/-- C7: the client encodes the logical decision Hit as a 10-byte
`ClientPayload` whose 5-byte decision field is the literal ASCII string
`"Hittt"` (bytes 72,105,116,116,116 — not `"Hit"` padded with NULs), and
the server decoder maps that wire literal back to Hit, so
decode-after-encode is the identity on both decisions. -/
theorem hit_encoded_as_hittt_roundtrip :
    pack_player_decision .Hit = u32be MAGIC_COOKIE ++ [MSG_PAYLOAD] ++ hitttBytes
    ∧ (pack_player_decision .Hit).length = 10
    ∧ hitttBytes = [72, 105, 116, 116, 116]
    ∧ hitttBytes ≠ [72, 105, 116, 0, 0]
    ∧ (∀ d : Decision, unpack_player_decision (pack_player_decision d) = .ok d) := by
  refine ⟨rfl, by decide, rfl, by decide, ?_⟩
  intro d
  cases d <;> decide

/-- C1: the score function that the server's `play_round` actually uses,
`Server.calculate_score`, does NOT perform the soft/hard Ace adjustment
the claim and its own docstring describe: on `[Ace, Ace, 9]` it returns
31, not the claimed 21.  The shared `BlackjackGame.calculate_score`
(blackjack_game.py) implements the claimed algorithm — the spec's worked

examples hold for it — but server.py does not call it. -/
theorem server_score_has_no_ace_adjustment :
    serverCalcScore [(1, 0), (1, 1), (9, 0)] = 31
    ∧ calculate_score [(1, 0), (1, 1), (9, 0)] = 21
    ∧ calculate_score [(1, 0), (1, 1), (1, 2), (9, 0)] = 12
    ∧ serverCalcScore [(1, 0), (10, 0)] = 21
    ∧ serverCalcScore [(1, 0), (1, 1)] = 22 :=
  ⟨by decide, by decide, by decide, by decide, by decide⟩

/-- C4: `BlackjackGame._draw_card` is total — it returns a card from
every deck state; whenever fewer than `RESHUFFLE_THRESHOLD` (5) cards
remain it first regenerates the full 52-card deck (containing every
rank/suit combination) and draws from that; and iterating the draw any
number of times (48 or more included) from any starting deck never
fails from exhaustion. -/
theorem draw_card_total_and_reshuffles :
    (∀ deck : List Card, (draw_card deck).isSome)
    ∧ (∀ deck : List Card, deck.length < RESHUFFLE_THRESHOLD →
        draw_card deck = listPop create_deck)
    ∧ create_deck.length = 52
    ∧ (∀ r s : Nat, 1 ≤ r → r ≤ 13 → s ≤ 3 → (r, s) ∈ create_deck)
    ∧ (∀ (n : Nat) (deck : List Card), (drawN n deck).isSome) := by
  have hdraw : ∀ deck : List Card, (draw_card deck).isSome := by
    intro deck
    unfold draw_card
    by_cases hl : deck.length < RESHUFFLE_THRESHOLD
    · rw [if_pos hl]
      exact listPop_isSome create_deck (by decide)
    · rw [if_neg hl]
      apply listPop_isSome
      intro hnil
      rw [hnil] at hl
      exact hl (by decide)
  refine ⟨hdraw, ?_, by decide, ?_, ?_⟩
  · intro deck hl
    unfold draw_card
    rw [if_pos hl]
  · intro r s h1 h2 h3
    interval_cases r <;> interval_cases s <;> decide
  · intro n
    induction n with
    | zero => intro deck; simp [drawN]
    | succ n ih =>
      intro deck
      simp only [drawN]
      cases hdc : draw_card deck with
      | none =>
        have := hdraw deck
        rw [hdc] at this
        simp at this
      | some p =>
        obtain ⟨c, deck1⟩ := p
        dsimp only
        cases hn : drawN n deck1 with
        | none =>
          have := ih deck1
          rw [hn] at this
          simp at this
        | some q =>
          obtain ⟨cs, dd⟩ := q
          rfl

/-- C8: for every result code that fits in one byte and every valid card
(rank 1..13, suit 0..3), packing a `ServerPayload` succeeds and the
client-side decoder returns the original result code, rank and suit
unchanged. -/
theorem server_payload_roundtrip (result_code card_rank card_suit : Nat)
    (hres : result_code < 256) (hr1 : 1 ≤ card_rank) (hr2 : card_rank ≤ 13)
    (hs : card_suit ≤ 3) :
    ∃ bytes, pack_payload_server result_code card_rank card_suit = some bytes
      ∧ unpack_payload_server bytes = .ok (result_code, card_rank, card_suit) := by
  have hb : u32be MAGIC_COOKIE = [171, 205, 220, 186] := by decide
  have hr0 : card_rank / 256 = 0 := Nat.div_eq_of_lt (by omega)
  have hrm : card_rank % 256 = card_rank := Nat.mod_eq_of_lt (by omega)
  have hpack : pack_payload_server result_code card_rank card_suit
      = some (171 :: 205 :: 220 :: 186 :: MSG_PAYLOAD :: result_code
          :: (card_rank / 256 % 256) :: (card_rank % 256) :: [card_suit]) := by
    unfold pack_payload_server
    rw [if_pos ⟨hres, by omega, by omega⟩, hb]
    rfl
  refine ⟨_, hpack, ?_⟩
  rw [hr0, hrm]
  simp [unpack_payload_server, bytesToNatBE, List.getD, MAGIC_COOKIE,
    MSG_PAYLOAD]

/-- C10: after the client decodes a 9-byte `ServerPayload`: with result
code Continue(0x0) and out-of-range card fields it raises (the round is
aborted with an error); with a terminal result code (Tie, Loss or Win)
the card fields are never validated — any field values are accepted and
the round is treated as normally completed. -/
theorem client_validates_cards_only_on_continue
    (data : List Nat) (result rank suit : Nat)
    (hu : unpack_payload_server data = .ok (result, rank, suit)) :
    (result = RESULT_CONTINUE → ¬(1 ≤ rank ∧ rank ≤ 13 ∧ suit ≤ 3) →
      receive_and_print_card data = .error (.invalidCard rank suit))
    ∧ ((result = RESULT_TIE ∨ result = RESULT_LOSS ∨ result = RESULT_WIN) →
      receive_and_print_card data = .ok (.roundOver result)) := by
  constructor
  · intro h0 hinv
    unfold receive_and_print_card
    rw [hu]
    show handle_payload result rank suit = _
    simp only [handle_payload]
    rw [if_pos h0, if_neg hinv]
  · intro hterm
    unfold receive_and_print_card
    rw [hu]
    show handle_payload result rank suit = _
    simp only [handle_payload]
    have hne : ¬(result = RESULT_CONTINUE) := by
      rcases hterm with h | h | h <;> subst h <;> decide
    rw [if_neg hne]

theorem player_bust_message_witness :
    ∃ drawn c,
      ([⟨0, 10, 0⟩, ⟨0, 8, 0⟩, ⟨0, 7, 1⟩, ⟨2, 5, 0⟩] : List Msg)
        = ([contMsg (10, 0), contMsg (8, 0), contMsg (7, 1)] ++ drawn.map contMsg)
          ++ [⟨RESULT_LOSS, c.1, c.2⟩]
      ∧ serverCalcScore ([(10, 0), (8, 0)] ++ drawn ++ [c]) > 21
      ∧ (∀ m ∈ [contMsg (10, 0), contMsg (8, 0), contMsg (7, 1)] ++ drawn.map contMsg,
          m.result = RESULT_CONTINUE)
      ∧ ([⟨0, 10, 0⟩, ⟨0, 8, 0⟩, ⟨0, 7, 1⟩, ⟨2, 5, 0⟩] : List Msg).getLast?
          = some ⟨RESULT_LOSS, c.1, c.2⟩ :=
  player_bust_message_is_round_end
    [(5, 0), (2, 1), (7, 1), (8, 0), (10, 0)] [.Hit]
    [⟨0, 10, 0⟩, ⟨0, 8, 0⟩, ⟨0, 7, 1⟩, ⟨2, 5, 0⟩]
    (10, 0) (8, 0) (7, 1) (2, 1) [(5, 0)] [⟨2, 5, 0⟩]
    (by decide) (by decide) (by decide)

theorem dealer_loop_witness :
    (∃ drawn, ([(7, 0), (6, 1), (9, 0)] : List Card) = [(7, 0), (6, 1)] ++ drawn
      ∧ (∀ k, k < drawn.length →
          serverCalcScore ([(7, 0), (6, 1)] ++ drawn.take k) < 17)
      ∧ (true = true → ∃ pre c, drawn = pre ++ [c]
          ∧ ([⟨3, 9, 0⟩] : List Msg) = pre.map contMsg ++ [⟨RESULT_WIN, c.1, c.2⟩]
          ∧ serverCalcScore [(7, 0), (6, 1), (9, 0)] > 21
          ∧ (∀ m ∈ pre.map contMsg, m.result = RESULT_CONTINUE))
      ∧ (true = false → ([⟨3, 9, 0⟩] : List Msg) = drawn.map contMsg
          ∧ 17 ≤ serverCalcScore [(7, 0), (6, 1), (9, 0)]))
    ∧ ([⟨0, 10, 0⟩, ⟨0, 8, 0⟩, ⟨0, 7, 1⟩, ⟨2, 5, 0⟩] : List Msg)
        = [contMsg (10, 0), contMsg (8, 0), contMsg (7, 1)] ++ [⟨2, 5, 0⟩] :=
  ⟨dealer_loop_behaviour.1 1 [(9, 0)] [(7, 0), (6, 1)] [⟨3, 9, 0⟩]
      [(7, 0), (6, 1), (9, 0)] true (by decide),
   dealer_loop_behaviour.2 [(5, 0), (2, 1), (7, 1), (8, 0), (10, 0)] [.Hit]
      [⟨0, 10, 0⟩, ⟨0, 8, 0⟩, ⟨0, 7, 1⟩, ⟨2, 5, 0⟩]
      (10, 0) (8, 0) (7, 1) (2, 1) [(5, 0)] [⟨2, 5, 0⟩]
      (by decide) (by decide) (by decide)⟩

theorem draw_card_witness :
    (([((2 : Nat), (0 : Nat))] : List Card).length < RESHUFFLE_THRESHOLD
      ∧ draw_card [(2, 0)] = listPop create_deck)
    ∧ ((13 : Nat), (3 : Nat)) ∈ create_deck
    ∧ (drawN 48 create_deck).isSome :=
  ⟨⟨by decide, draw_card_total_and_reshuffles.2.1 [(2, 0)] (by decide)⟩,
   draw_card_total_and_reshuffles.2.2.2.1 13 3 (by decide) (by decide) (by decide),
   draw_card_total_and_reshuffles.2.2.2.2 48 create_deck⟩

theorem decode_error_witness :
    unpack_request (List.replicate 37 0) = .error .MalformedMessage
    ∧ unpack_request (List.replicate 38 0) = .error .BadMagic
    ∧ unpack_request ([171, 205, 220, 186] ++ [0] ++ List.replicate 33 0)
        = .error .UnexpectedType
    ∧ unpack_player_decision (List.replicate 9 0) = .error .MalformedMessage
    ∧ unpack_player_decision ([171, 205, 220, 186] ++ [4] ++ [72, 105, 116, 0, 0])
        = .error .InvalidDecision
    ∧ (unpack_player_decision ([171, 205, 220, 186] ++ [4] ++ [72, 105, 116, 116, 116])
        = .ok .Hit
       ↔ ((([171, 205, 220, 186] ++ [4] ++ [72, 105, 116, 116, 116] : List Nat)).drop 5).take 5
          = hitttBytes) :=
  ⟨decode_error_taxonomy.1 (List.replicate 37 0) (by decide),
   decode_error_taxonomy.2.1 (List.replicate 38 0) (by decide) (by decide),
   decode_error_taxonomy.2.2.1 ([171, 205, 220, 186] ++ [0] ++ List.replicate 33 0)
     (by decide) (by decide) (by decide),
   decode_error_taxonomy.2.2.2.2.1 (List.replicate 9 0) (by decide),
   (decode_error_taxonomy.2.2.2.2.2.2.2
     ([171, 205, 220, 186] ++ [4] ++ [72, 105, 116, 0, 0])
     (by decide) (by decide) (by decide)).1 (by decide) (by decide),
   (decode_error_taxonomy.2.2.2.2.2.2.2
     ([171, 205, 220, 186] ++ [4] ++ [72, 105, 116, 116, 116])
     (by decide) (by decide) (by decide)).2.1⟩

theorem one_outcome_witness :
    (∃ pre last, ([⟨0, 10, 0⟩, ⟨0, 8, 0⟩, ⟨0, 8, 1⟩, ⟨0, 9, 1⟩, ⟨3, 0, 0⟩] : List Msg)
        = pre ++ [last]
      ∧ (∀ m ∈ pre, m.result = RESULT_CONTINUE)
      ∧ (last.result = RESULT_TIE ∨ last.result = RESULT_LOSS
          ∨ last.result = RESULT_WIN))
    ∧ ([⟨0, 10, 0⟩, ⟨0, 8, 0⟩, ⟨0, 8, 1⟩, ⟨0, 9, 1⟩, ⟨3, 0, 0⟩] : List Msg).getLast?
        = some ⟨showdownCode (serverCalcScore [(10, 0), (8, 0)])
            (serverCalcScore [(8, 1), (9, 1)]), 0, 0⟩ :=
  ⟨one_outcome_message_per_round.1 [(2, 2), (9, 1), (8, 1), (8, 0), (10, 0)] [.Stand]
      [⟨0, 10, 0⟩, ⟨0, 8, 0⟩, ⟨0, 8, 1⟩, ⟨0, 9, 1⟩, ⟨3, 0, 0⟩] (by decide),
   one_outcome_message_per_round.2 [(2, 2), (9, 1), (8, 1), (8, 0), (10, 0)] [.Stand]
      [⟨0, 10, 0⟩, ⟨0, 8, 0⟩, ⟨0, 8, 1⟩, ⟨0, 9, 1⟩, ⟨3, 0, 0⟩]
      (10, 0) (8, 0) (8, 1) (9, 1) [(2, 2)] [] [(10, 0), (8, 0)] [(2, 2)] []
      [(8, 1), (9, 1)] (by decide) (by decide) (by decide) (by decide)⟩

theorem server_payload_roundtrip_witness :
    ∃ bytes, pack_payload_server 3 13 2 = some bytes
      ∧ unpack_payload_server bytes = .ok (3, 13, 2) :=
  server_payload_roundtrip 3 13 2 (by decide) (by decide) (by decide) (by decide)

theorem hidden_card_witness :
    ∃ rest, ([⟨0, 10, 0⟩, ⟨0, 8, 0⟩, ⟨0, 8, 1⟩, ⟨0, 9, 1⟩, ⟨3, 0, 0⟩] : List Msg)
        = [contMsg (10, 0), contMsg (8, 0), contMsg (8, 1)] ++ []
          ++ contMsg (9, 1) :: rest
      ∧ ∀ m ∈ [contMsg (10, 0), contMsg (8, 0), contMsg (8, 1)] ++ ([] : List Msg),
          (m.rank, m.suit) ≠ (9, 1) :=
  (hidden_card_held_back [(2, 2), (9, 1), (8, 1), (8, 0), (10, 0)] [.Stand]
    [⟨0, 10, 0⟩, ⟨0, 8, 0⟩, ⟨0, 8, 1⟩, ⟨0, 9, 1⟩, ⟨3, 0, 0⟩]
    (10, 0) (8, 0) (8, 1) (9, 1) [(2, 2)]
    (by decide) (by decide) (by decide)).2 [] [(10, 0), (8, 0)] [(2, 2)] (by decide)

theorem client_validation_witness :
    receive_and_print_card ([171, 205, 220, 186] ++ [4, 0, 0, 14, 0])
      = .error (.invalidCard 14 0)
    ∧ receive_and_print_card ([171, 205, 220, 186] ++ [4, 2, 3, 231, 77])
      = .ok (.roundOver 2) :=
  ⟨(client_validates_cards_only_on_continue
      ([171, 205, 220, 186] ++ [4, 0, 0, 14, 0]) 0 14 0 (by decide)).1
      rfl (by decide),
   (client_validates_cards_only_on_continue
      ([171, 205, 220, 186] ++ [4, 2, 3, 231, 77]) 2 999 77 (by decide)).2
      (Or.inr (Or.inl rfl))⟩
